import Mathlib

/-!
Verification of the mashup pipeline (`app.py`): the item fetcher
(`download_single_audio`), the fetch orchestrator (`download_all_audio`),
the composite assembler (`create_mashup`) and the pipeline driver (`main`)
are shallowly embedded below, and the behavioural claims about them are
proved or refuted against these definitions.
-/

namespace Mashup

/-- Python strings are modelled as lists of characters. -/
abbrev Str := List Char

/-- The apostrophe character (used to build string literals containing it). -/
def apos : Char := Char.ofNat 39

/-- The anti-automation signal tested by `download_single_audio`:
`"Sign in to confirm you're not a bot"`. -/
def antiBotSignal : Str :=
  "Sign in to confirm you".data ++ [apos] ++ "re not a bot".data

/-- Python `needle in hay` for strings: substring containment,
checked executably. -/
def strIn (needle : Str) : Str → Bool
  | [] => needle.isPrefixOf []
  | c :: rest => needle.isPrefixOf (c :: rest) || strIn needle rest

/-- Number of tries of the item fetcher (`max_attempts = 5` in the source). -/
def maxAttempts : Nat := 5

/-- The environment-determined outcome of one `ydl.download` attempt:
either the download succeeds and `os.listdir(download_path)` returns
`listing`, or an exception with message `msg` is raised. -/
inductive AttemptOutcome where
  | ok (listing : List Str)
  | exn (msg : Str)

/-- The f-string `f"song_{index}."` used to locate the downloaded file. -/
def songTag (index : Nat) : Str :=
  "song_".data ++ (Nat.repr index).data ++ ".".data

/-- The `".mp3"` extension filter. -/
def mp3Ext : Str := ".mp3".data

/-- `f.startswith(f"song_{index}.") and f.endswith(".mp3")`. -/
def matchesIndex (index : Nat) (f : Str) : Bool :=
  (songTag index).isPrefixOf f && mp3Ext.isSuffixOf f

/-- `os.path.join(download_path, f)`. -/
def pathJoin (dir f : Str) : Str := dir ++ "/".data ++ f

/-- Observable result of one `download_single_audio` call: the returned
value (`some path` or `None`), the number of attempts performed, the number
of user-agent rotations, and the total time slept in backoff (seconds). -/
structure FetchResult where
  result : Option Str
  tries : Nat
  rotations : Nat
  slept : ℚ

/-- The retry loop of `download_single_audio`.  `attempt` is the Python
loop variable, `fuel` the number of loop iterations remaining, and `tries`,
`rotations`, `slept` accumulate the observable behaviour.  On a successful
download the directory listing is filtered for `song_{index}.*.mp3`; an
empty filter result returns `None`.  On an exception matching the anti-bot
signal the fetcher sleeps `2^attempt + jitter` seconds, rotates the user
agent and retries; any other exception returns `None` immediately. -/
def fetchAux (index : Nat) (downloadPath : Str) (trace : Nat → AttemptOutcome)
    (jitter : Nat → ℚ) : Nat → Nat → Nat → Nat → ℚ → FetchResult
  | _, 0, tries, rotations, slept => ⟨none, tries, rotations, slept⟩
  | attempt, fuel + 1, tries, rotations, slept =>
    match trace attempt with
    | AttemptOutcome.ok listing =>
      match listing.filter (matchesIndex index) with
      | [] => ⟨none, tries + 1, rotations, slept⟩
      | f :: _ => ⟨some (pathJoin downloadPath f), tries + 1, rotations, slept⟩
    | AttemptOutcome.exn msg =>
      if strIn antiBotSignal msg then
        fetchAux index downloadPath trace jitter (attempt + 1) fuel (tries + 1) (rotations + 1)
          (slept + ((2 : ℚ) ^ attempt + jitter attempt))
      else ⟨none, tries + 1, rotations, slept⟩

/-- `download_single_audio(url, index, download_path)`: run the retry loop
from attempt 0 with `max_attempts` iterations of fuel. -/
def download_single_audio (index : Nat) (downloadPath : Str)
    (trace : Nat → AttemptOutcome) (jitter : Nat → ℚ) : FetchResult :=
  fetchAux index downloadPath trace jitter 0 maxAttempts 0 0 0

/-- A trace in which every attempt raises the anti-bot signal. -/
def botTrace : Nat → AttemptOutcome := fun _ => AttemptOutcome.exn antiBotSignal

/-- A trace in which every attempt raises an unrelated error. -/
def otherTrace : Nat → AttemptOutcome := fun _ => AttemptOutcome.exn ("boom".data)

/-- Every string contains itself as a substring. -/
lemma strIn_self (l : Str) : strIn l l = true := by
  cases l with
  | nil => rfl
  | cons c rest =>
    simp only [strIn, Bool.or_eq_true]
    exact Or.inl (by simp [List.isPrefixOf_iff_prefix])

/-- Step equation: successful download, matching file found. -/
lemma fetchAux_ok_found (index : Nat) (downloadPath : Str) (trace : Nat → AttemptOutcome)
    (jitter : Nat → ℚ) (attempt fuel tries rotations : Nat) (slept : ℚ)
    (listing : List Str) (f : Str) (rest : List Str)
    (h : trace attempt = AttemptOutcome.ok listing)
    (hfl : listing.filter (matchesIndex index) = f :: rest) :
    fetchAux index downloadPath trace jitter attempt (fuel + 1) tries rotations slept =
      ⟨some (pathJoin downloadPath f), tries + 1, rotations, slept⟩ := by
  simp [fetchAux, h, hfl]

/-- Step equation: successful download, but no matching file in the
directory listing. -/
lemma fetchAux_ok_missing (index : Nat) (downloadPath : Str) (trace : Nat → AttemptOutcome)
    (jitter : Nat → ℚ) (attempt fuel tries rotations : Nat) (slept : ℚ)
    (listing : List Str)
    (h : trace attempt = AttemptOutcome.ok listing)
    (hfl : listing.filter (matchesIndex index) = []) :
    fetchAux index downloadPath trace jitter attempt (fuel + 1) tries rotations slept =
      ⟨none, tries + 1, rotations, slept⟩ := by
  simp [fetchAux, h, hfl]

/-- Step equation: exception matching the anti-bot signal. -/
lemma fetchAux_exn_bot (index : Nat) (downloadPath : Str) (trace : Nat → AttemptOutcome)
    (jitter : Nat → ℚ) (attempt fuel tries rotations : Nat) (slept : ℚ) (msg : Str)
    (h : trace attempt = AttemptOutcome.exn msg)
    (hb : strIn antiBotSignal msg = true) :
    fetchAux index downloadPath trace jitter attempt (fuel + 1) tries rotations slept =
      fetchAux index downloadPath trace jitter (attempt + 1) fuel (tries + 1) (rotations + 1)
        (slept + ((2 : ℚ) ^ attempt + jitter attempt)) := by
  simp [fetchAux, h, hb]

/-- Step equation: exception not matching the anti-bot signal. -/
lemma fetchAux_exn_other (index : Nat) (downloadPath : Str) (trace : Nat → AttemptOutcome)
    (jitter : Nat → ℚ) (attempt fuel tries rotations : Nat) (slept : ℚ) (msg : Str)
    (h : trace attempt = AttemptOutcome.exn msg)
    (hb : strIn antiBotSignal msg = false) :
    fetchAux index downloadPath trace jitter attempt (fuel + 1) tries rotations slept =
      ⟨none, tries + 1, rotations, slept⟩ := by
  simp [fetchAux, h, hb]

end Mashup

namespace Mashup

/-- Claim C1: in the item fetcher, an attempt that raises an error matching
the anti-automation signal makes the fetcher sleep `2^attempt + jitter`
seconds, rotate the client identity, and retry at the next attempt; an
attempt that raises a non-matching error makes the fetcher return `None`
immediately, with no further attempt, sleep, or rotation. -/
theorem fetch_retry_policy (index : Nat) (downloadPath : Str)
    (trace : Nat → AttemptOutcome) (jitter : Nat → ℚ)
    (attempt fuel tries rotations : Nat) (slept : ℚ) (msg : Str)
    (hmsg : trace attempt = AttemptOutcome.exn msg) :
    (strIn antiBotSignal msg = true →
      fetchAux index downloadPath trace jitter attempt (fuel + 1) tries rotations slept =
        fetchAux index downloadPath trace jitter (attempt + 1) fuel (tries + 1) (rotations + 1)
          (slept + ((2 : ℚ) ^ attempt + jitter attempt))) ∧
    (strIn antiBotSignal msg = false →
      fetchAux index downloadPath trace jitter attempt (fuel + 1) tries rotations slept =
        ⟨none, tries + 1, rotations, slept⟩) := by
  constructor <;> intro h <;> simp [fetchAux, hmsg, h]

/-- Witness for C1: with every attempt raising the anti-bot signal, the
first loop iteration backs off by `2^0 + 0` seconds, rotates once and
retries. -/
theorem fetch_retry_policy_witness :
    fetchAux 1 ("d".data) botTrace (fun _ => 0) 0 (4 + 1) 0 0 0 =
      fetchAux 1 ("d".data) botTrace (fun _ => 0) (0 + 1) 4 (0 + 1) (0 + 1)
        (0 + ((2 : ℚ) ^ 0 + 0)) :=
  (fetch_retry_policy 1 ("d".data) botTrace (fun _ => 0) 0 4 0 0 0 antiBotSignal rfl).1
    (strIn_self antiBotSignal)

/-- The retry loop performs at most `fuel` further attempts. -/
lemma fetchAux_tries_le (index : Nat) (downloadPath : Str)
    (trace : Nat → AttemptOutcome) (jitter : Nat → ℚ) :
    ∀ fuel attempt tries rotations slept,
      (fetchAux index downloadPath trace jitter attempt fuel tries rotations slept).tries ≤
        tries + fuel := by
  intro fuel
  induction fuel with
  | zero => intro attempt tries rotations slept; simp [fetchAux]
  | succ fuel ih =>
    intro attempt tries rotations slept
    cases htr : trace attempt with
    | ok listing =>
      cases hfl : listing.filter (matchesIndex index) with
      | nil =>
        rw [fetchAux_ok_missing index downloadPath trace jitter attempt fuel tries rotations
          slept listing htr hfl]
        show tries + 1 ≤ tries + (fuel + 1)
        omega
      | cons f t =>
        rw [fetchAux_ok_found index downloadPath trace jitter attempt fuel tries rotations
          slept listing f t htr hfl]
        show tries + 1 ≤ tries + (fuel + 1)
        omega
    | exn msg =>
      cases hb : strIn antiBotSignal msg with
      | true =>
        rw [fetchAux_exn_bot index downloadPath trace jitter attempt fuel tries rotations
          slept msg htr hb]
        calc (fetchAux index downloadPath trace jitter (attempt + 1) fuel (tries + 1)
                (rotations + 1) (slept + ((2 : ℚ) ^ attempt + jitter attempt))).tries
            ≤ (tries + 1) + fuel := ih _ _ _ _
          _ = tries + (fuel + 1) := by omega
      | false =>
        rw [fetchAux_exn_other index downloadPath trace jitter attempt fuel tries rotations
          slept msg htr hb]
        show tries + 1 ≤ tries + (fuel + 1)
        omega

/-- Each backoff sleep is at most `2^attempt + 1`, so the total time slept
by the loop is bounded by the geometric sum over the remaining attempts. -/
lemma fetchAux_slept_le (index : Nat) (downloadPath : Str)
    (trace : Nat → AttemptOutcome) (jitter : Nat → ℚ)
    (hj : ∀ i, jitter i ≤ 1) :
    ∀ fuel attempt tries rotations (slept : ℚ),
      (fetchAux index downloadPath trace jitter attempt fuel tries rotations slept).slept ≤
        slept + ((2 : ℚ) ^ (attempt + fuel) - 2 ^ attempt) + fuel := by
  intro fuel
  induction fuel with
  | zero => intro attempt tries rotations slept; simp [fetchAux]
  | succ fuel ih =>
    intro attempt tries rotations slept
    have hpow : (2 : ℚ) ^ attempt ≤ 2 ^ (attempt + (fuel + 1)) := by
      apply pow_le_pow_right₀ (by norm_num) (by omega)
    have hstay : slept ≤ slept + ((2 : ℚ) ^ (attempt + (fuel + 1)) - 2 ^ attempt) +
        ((fuel : ℚ) + 1) := by linarith
    have hcast : ((fuel + 1 : Nat) : ℚ) = (fuel : ℚ) + 1 := by push_cast; ring
    cases htr : trace attempt with
    | ok listing =>
      cases hfl : listing.filter (matchesIndex index) with
      | nil =>
        rw [fetchAux_ok_missing index downloadPath trace jitter attempt fuel tries rotations
          slept listing htr hfl]
        show slept ≤ slept + ((2 : ℚ) ^ (attempt + (fuel + 1)) - 2 ^ attempt) + ((fuel + 1 : Nat) : ℚ)
        rw [hcast]; exact hstay
      | cons f t =>
        rw [fetchAux_ok_found index downloadPath trace jitter attempt fuel tries rotations
          slept listing f t htr hfl]
        show slept ≤ slept + ((2 : ℚ) ^ (attempt + (fuel + 1)) - 2 ^ attempt) + ((fuel + 1 : Nat) : ℚ)
        rw [hcast]; exact hstay
    | exn msg =>
      cases hb : strIn antiBotSignal msg with
      | true =>
        rw [fetchAux_exn_bot index downloadPath trace jitter attempt fuel tries rotations
          slept msg htr hb]
        have h1 := ih (attempt + 1) (tries + 1) (rotations + 1)
          (slept + ((2 : ℚ) ^ attempt + jitter attempt))
        have h2 : jitter attempt ≤ 1 := hj attempt
        have h3 : (2 : ℚ) ^ (attempt + 1) = 2 * 2 ^ attempt := by ring
        have h4 : attempt + 1 + fuel = attempt + (fuel + 1) := by omega
        rw [h4, h3] at h1
        refine le_trans h1 ?_
        rw [hcast]
        linarith
      | false =>
        rw [fetchAux_exn_other index downloadPath trace jitter attempt fuel tries rotations
          slept msg htr hb]
        show slept ≤ slept + ((2 : ℚ) ^ (attempt + (fuel + 1)) - 2 ^ attempt) + ((fuel + 1 : Nat) : ℚ)
        rw [hcast]; exact hstay

/-- If every remaining attempt raises the anti-bot signal, the loop
exhausts its fuel and returns `None`. -/
lemma fetchAux_none_of_all_bot (index : Nat) (downloadPath : Str)
    (trace : Nat → AttemptOutcome) (jitter : Nat → ℚ) :
    ∀ fuel attempt tries rotations slept,
      (∀ a, attempt ≤ a → a < attempt + fuel →
        ∃ msg, trace a = AttemptOutcome.exn msg ∧ strIn antiBotSignal msg = true) →
      (fetchAux index downloadPath trace jitter attempt fuel tries rotations slept).result =
        none := by
  intro fuel
  induction fuel with
  | zero => intro attempt tries rotations slept _; simp [fetchAux]
  | succ fuel ih =>
    intro attempt tries rotations slept hall
    obtain ⟨msg, hmsg, hbot⟩ := hall attempt (le_refl _) (by omega)
    rw [fetchAux_exn_bot index downloadPath trace jitter attempt fuel tries rotations
      slept msg hmsg hbot]
    exact ih (attempt + 1) _ _ _ (fun a ha1 ha2 => hall a (by omega) (by omega))

/-- Claim C3: the item fetcher performs at most `maxAttempts = 5` tries,
sleeps in total at most `Σ 2^i (i = 0..4) + 5·1` seconds (one second of
jitter at most per attempt), and, when every attempt raises the anti-bot
signal, exhausts the 5 attempts and returns `None`. -/
theorem fetch_retry_cap (index : Nat) (downloadPath : Str)
    (trace : Nat → AttemptOutcome) (jitter : Nat → ℚ)
    (hj : ∀ i, 0 ≤ jitter i ∧ jitter i < 1) :
    (download_single_audio index downloadPath trace jitter).tries ≤ maxAttempts ∧
    (download_single_audio index downloadPath trace jitter).slept ≤
      (Finset.range maxAttempts).sum (fun i => (2 : ℚ) ^ i) + (maxAttempts : ℚ) ∧
    ((∀ a, a < maxAttempts →
        ∃ msg, trace a = AttemptOutcome.exn msg ∧ strIn antiBotSignal msg = true) →
      (download_single_audio index downloadPath trace jitter).result = none) := by
  refine ⟨?_, ?_, ?_⟩
  · have := fetchAux_tries_le index downloadPath trace jitter maxAttempts 0 0 0 0
    simpa [download_single_audio] using this
  · have h1 := fetchAux_slept_le index downloadPath trace jitter
      (fun i => le_of_lt (hj i).2) maxAttempts 0 0 0 0
    have h2 : (0 : ℚ) + ((2 : ℚ) ^ (0 + maxAttempts) - 2 ^ 0) + (maxAttempts : ℚ) =
        (Finset.range maxAttempts).sum (fun i => (2 : ℚ) ^ i) + (maxAttempts : ℚ) := by
      norm_num [maxAttempts, Finset.sum_range_succ]
    rw [download_single_audio]
    calc (fetchAux index downloadPath trace jitter 0 maxAttempts 0 0 0).slept
        ≤ (0 : ℚ) + ((2 : ℚ) ^ (0 + maxAttempts) - 2 ^ 0) + (maxAttempts : ℚ) := h1
      _ = _ := h2
  · intro hall
    exact fetchAux_none_of_all_bot index downloadPath trace jitter maxAttempts 0 0 0 0
      (fun a h1 h2 => hall a (by omega))

/-- Witness for C3: when every attempt raises the anti-bot signal and the
jitter is the constant `1/2`, the fetcher performs at most 5 tries, sleeps
at most `31 + 5` seconds and returns `None`. -/
theorem fetch_retry_cap_witness :
    (download_single_audio 1 ("d".data) botTrace (fun _ => 1 / 2)).tries ≤ maxAttempts ∧
    (download_single_audio 1 ("d".data) botTrace (fun _ => 1 / 2)).slept ≤
      (Finset.range maxAttempts).sum (fun i => (2 : ℚ) ^ i) + (maxAttempts : ℚ) ∧
    ((∀ a, a < maxAttempts →
        ∃ msg, botTrace a = AttemptOutcome.exn msg ∧ strIn antiBotSignal msg = true) →
      (download_single_audio 1 ("d".data) botTrace (fun _ => 1 / 2)).result = none) :=
  fetch_retry_cap 1 ("d".data) botTrace (fun _ => 1 / 2)
    (fun _ => by norm_num)

/-! ### Decimal rendering of slot indices

`download_single_audio` identifies its output file by the f-string
`f"song_{index}."`.  Distinctness of the returned paths for distinct slot
indices reduces to injectivity of the decimal rendering `Nat.repr`, which
we establish here by evaluating the rendered digits back to the number. -/

/-- Decimal value of a digit character. -/
def decDigitVal (c : Char) : Nat := c.toNat - 48

/-- Evaluate a list of digit characters as a decimal numeral. -/
def decEval (l : List Char) : Nat := l.foldl (fun a c => a * 10 + decDigitVal c) 0

/-- `Nat.toDigitsCore` only prepends to its accumulator. -/
lemma toDigitsCore_acc (fuel : Nat) :
    ∀ (n : Nat) (ds : List Char),
      Nat.toDigitsCore 10 fuel n ds = Nat.toDigitsCore 10 fuel n [] ++ ds := by
  induction fuel with
  | zero => intro n ds; simp [Nat.toDigitsCore]
  | succ fuel ih =>
    intro n ds
    simp only [Nat.toDigitsCore]
    by_cases h : n / 10 = 0
    · simp [h]
    · rw [if_neg h, if_neg h, ih (n / 10) (Nat.digitChar (n % 10) :: ds),
        ih (n / 10) [Nat.digitChar (n % 10)]]
      simp

/-- The digit characters produced for remainders base 10 are never a dot
and evaluate back to the remainder. -/
lemma digitChar_spec (m : Nat) (h : m < 10) :
    decDigitVal (Nat.digitChar m) = m ∧ Nat.digitChar m ≠ Char.ofNat 46 := by
  interval_cases m <;> exact ⟨by decide, by decide⟩

/-- Every character produced by `Nat.toDigitsCore` on an empty accumulator
is a decimal digit of the number: evaluating the output recovers `n`. -/
lemma decEval_toDigitsCore :
    ∀ (fuel n : Nat), n < 10 ^ fuel →
      decEval (Nat.toDigitsCore 10 fuel n []) = n := by
  intro fuel
  induction fuel with
  | zero => intro n hn; interval_cases n; rfl
  | succ fuel ih =>
    intro n hn
    simp only [Nat.toDigitsCore]
    by_cases h : n / 10 = 0
    · rw [if_pos h]
      have hn10 : n < 10 := by omega
      have hmod : n % 10 = n := Nat.mod_eq_of_lt hn10
      simp [decEval, hmod, (digitChar_spec n hn10).1]
    · rw [if_neg h, toDigitsCore_acc fuel (n / 10) [Nat.digitChar (n % 10)]]
      have hdiv : n / 10 < 10 ^ fuel := by
        rw [pow_succ, Nat.mul_comm] at hn
        exact Nat.div_lt_of_lt_mul hn
      have hih := ih (n / 10) hdiv
      simp only [decEval, List.foldl_append, List.foldl_cons, List.foldl_nil]
      rw [show (Nat.toDigitsCore 10 fuel (n / 10) []).foldl
            (fun a c => a * 10 + decDigitVal c) 0 = n / 10 from hih,
        (digitChar_spec (n % 10) (Nat.mod_lt n (by omega))).1]
      omega

/-- No character of `Nat.toDigitsCore 10 fuel n acc` lies outside the
digits and the accumulator; in particular a dot never appears. -/
lemma toDigitsCore_no_dot :
    ∀ (fuel n : Nat) (ds : List Char), (∀ c ∈ ds, c ≠ Char.ofNat 46) →
      ∀ c ∈ Nat.toDigitsCore 10 fuel n ds, c ≠ Char.ofNat 46 := by
  intro fuel
  induction fuel with
  | zero => intro n ds hds; simpa [Nat.toDigitsCore] using hds
  | succ fuel ih =>
    intro n ds hds
    simp only [Nat.toDigitsCore]
    by_cases h : n / 10 = 0
    · rw [if_pos h]
      intro c hc
      rcases List.mem_cons.mp hc with rfl | hc
      · exact (digitChar_spec (n % 10) (Nat.mod_lt n (by omega))).2
      · exact hds c hc
    · rw [if_neg h]
      refine ih (n / 10) (Nat.digitChar (n % 10) :: ds) ?_
      intro c hc
      rcases List.mem_cons.mp hc with rfl | hc
      · exact (digitChar_spec (n % 10) (Nat.mod_lt n (by omega))).2
      · exact hds c hc

/-- Any natural number is below `10 ^ (n + 1)`. -/
lemma lt_ten_pow_succ (n : Nat) : n < 10 ^ (n + 1) := by
  induction n with
  | zero => norm_num
  | succ n ih =>
    have h1 : 10 ^ (n + 1) < 10 ^ (n + 2) := by
      have := Nat.pow_lt_pow_succ (a := 10) (by norm_num) (n := n + 1)
      simpa using this
    omega

/-- Evaluating the decimal rendering of `n` recovers `n`. -/
lemma decEval_repr (n : Nat) : decEval (Nat.repr n).data = n := by
  have h : (Nat.repr n).data = Nat.toDigitsCore 10 (n + 1) n [] := by
    simp [Nat.repr, Nat.toDigits, List.asString]
  rw [h]
  exact decEval_toDigitsCore (n + 1) n (lt_ten_pow_succ n)

/-- The decimal rendering `Nat.repr` is injective (on the character data). -/
lemma repr_data_injective {m n : Nat}
    (h : (Nat.repr m).data = (Nat.repr n).data) : m = n := by
  have := congrArg decEval h
  rwa [decEval_repr, decEval_repr] at this

/-- No character of the decimal rendering of `n` is a dot. -/
lemma repr_no_dot (n : Nat) : ∀ c ∈ (Nat.repr n).data, c ≠ Char.ofNat 46 := by
  have h : (Nat.repr n).data = Nat.toDigitsCore 10 (n + 1) n [] := by
    simp [Nat.repr, Nat.toDigits, List.asString]
  rw [h]
  exact toDigitsCore_no_dot (n + 1) n [] (by simp)

/-- Cancel a common left factor of two prefix-related lists. -/
lemma pre_cancel_left {a x y : List Char} (h : a ++ x <+: a ++ y) : x <+: y := by
  obtain ⟨t, ht⟩ := h
  rw [List.append_assoc] at ht
  exact ⟨t, List.append_cancel_left ht⟩

/-- If `a ++ [d] <+: b ++ [d]` and `d` occurs in neither `a` nor `b`,
then `a = b`. -/
lemma append_last_eq {a b : List Char} {d : Char}
    (_ha : ∀ c ∈ a, c ≠ d) (hb : ∀ c ∈ b, c ≠ d)
    (h : a ++ [d] <+: b ++ [d]) : a = b := by
  obtain ⟨t, ht⟩ := h
  rcases List.eq_nil_or_concat t with rfl | ⟨t2, x, rfl⟩
  · have hcat : a ++ [d] = b ++ [d] := by simpa using ht
    exact List.append_cancel_right hcat
  · rw [List.concat_eq_append, ← List.append_assoc] at ht
    have hinj := List.append_inj' ht rfl
    have hdmem : d ∈ b := by
      rw [← hinj.1]
      simp
    exact absurd rfl (hb d hdmem)

/-- `".".data` is the singleton dot character. -/
lemma dot_data : ".".data = [Char.ofNat 46] := by decide

/-- Two `song_{index}.` tags that are both prefixes of the same filename
force the indices to agree. -/
lemma songTag_index_eq {i j : Nat} {f : Str}
    (hi : (songTag i).isPrefixOf f = true) (hj : (songTag j).isPrefixOf f = true) :
    i = j := by
  rw [List.isPrefixOf_iff_prefix] at hi hj
  have key : ∀ a b : Nat, songTag a <+: songTag b → a = b := by
    intro a b hab
    unfold songTag at hab
    rw [List.append_assoc, List.append_assoc] at hab
    have hab2 := pre_cancel_left hab
    rw [dot_data] at hab2
    exact repr_data_injective (append_last_eq (repr_no_dot a) (repr_no_dot b) hab2)
  rcases List.prefix_or_prefix_of_prefix hi hj with h | h
  · exact key i j h
  · exact (key j i h).symm

/-- Any path returned by the retry loop is `download_path/f` for some
file `f` whose name starts with the `song_{index}.` tag. -/
lemma fetchAux_result_tag (index : Nat) (downloadPath : Str)
    (trace : Nat → AttemptOutcome) (jitter : Nat → ℚ) :
    ∀ fuel attempt tries rotations slept p,
      (fetchAux index downloadPath trace jitter attempt fuel tries rotations slept).result =
        some p →
      ∃ f, p = pathJoin downloadPath f ∧ (songTag index).isPrefixOf f = true := by
  intro fuel
  induction fuel with
  | zero => intro attempt tries rotations slept p h; simp [fetchAux] at h
  | succ fuel ih =>
    intro attempt tries rotations slept p h
    cases htr : trace attempt with
    | ok listing =>
      cases hfl : listing.filter (matchesIndex index) with
      | nil =>
        rw [fetchAux_ok_missing index downloadPath trace jitter attempt fuel tries rotations
          slept listing htr hfl] at h
        simp at h
      | cons f t =>
        rw [fetchAux_ok_found index downloadPath trace jitter attempt fuel tries rotations
          slept listing f t htr hfl] at h
        have hp : pathJoin downloadPath f = p := by simpa using h
        have hf : f ∈ listing.filter (matchesIndex index) := by
          rw [hfl]; exact List.mem_cons_self f t
        have hmatch : matchesIndex index f = true := List.of_mem_filter hf
        have hmm : (songTag index).isPrefixOf f = true ∧ mp3Ext.isSuffixOf f = true := by
          simpa [matchesIndex, Bool.and_eq_true] using hmatch
        exact ⟨f, hp.symm, hmm.1⟩
    | exn msg =>
      cases hb : strIn antiBotSignal msg with
      | true =>
        rw [fetchAux_exn_bot index downloadPath trace jitter attempt fuel tries rotations
          slept msg htr hb] at h
        exact ih _ _ _ _ _ h
      | false =>
        rw [fetchAux_exn_other index downloadPath trace jitter attempt fuel tries rotations
          slept msg htr hb] at h
        simp at h

/-- Wrapper of `fetchAux_result_tag` for `download_single_audio`. -/
lemma download_single_audio_result_tag (index : Nat) (downloadPath : Str)
    (trace : Nat → AttemptOutcome) (jitter : Nat → ℚ) (p : Str)
    (h : (download_single_audio index downloadPath trace jitter).result = some p) :
    ∃ f, p = pathJoin downloadPath f ∧ (songTag index).isPrefixOf f = true :=
  fetchAux_result_tag index downloadPath trace jitter maxAttempts 0 0 0 0 p h

/-- Two successful fetches into the same directory that return the same
path must come from the same slot index. -/
lemma result_same_path_index_eq (downloadPath : Str)
    (traces : Nat → Nat → AttemptOutcome) (jitters : Nat → Nat → ℚ)
    (i j : Nat) (p : Str)
    (hi : (download_single_audio i downloadPath (traces i) (jitters i)).result = some p)
    (hj : (download_single_audio j downloadPath (traces j) (jitters j)).result = some p) :
    i = j := by
  obtain ⟨f1, hp1, htag1⟩ := download_single_audio_result_tag i downloadPath
    (traces i) (jitters i) p hi
  obtain ⟨f2, hp2, htag2⟩ := download_single_audio_result_tag j downloadPath
    (traces j) (jitters j) p hj
  have hf : f1 = f2 := by
    have heq : pathJoin downloadPath f1 = pathJoin downloadPath f2 := hp1.symm.trans hp2
    unfold pathJoin at heq
    rw [List.append_assoc, List.append_assoc] at heq
    exact List.append_cancel_left (List.append_cancel_left heq)
  exact songTag_index_eq htag1 (hf ▸ htag2)

/-- Python `enumerate(shuffled, start=1)`: each URL paired with its
1-based slot index. -/
def pyEnumerate (start : Nat) : List String → List (Nat × String)
  | [] => []
  | u :: us => (start, u) :: pyEnumerate (start + 1) us

/-- `download_all_audio`: one `download_single_audio` per enumerated URL
of the (already shuffled) list; `None` results are dropped, successful
paths collected.  (`max_workers = 1` makes completion order equal
submission order.) -/
def download_all_audio (shuffled : List String) (downloadPath : Str)
    (traces : Nat → Nat → AttemptOutcome) (jitters : Nat → Nat → ℚ) : List Str :=
  (pyEnumerate 1 shuffled).filterMap
    (fun q => (download_single_audio q.1 downloadPath (traces q.1) (jitters q.1)).result)

/-- The observable effect of one `download_all_audio` call: the returned
list of paths together with the caller's url list after the in-place
`random.shuffle`. -/
structure OrchestratorRun where
  results : List Str
  urlsAfter : List String

/-- Full run of `download_all_audio`: `random.shuffle(video_urls)` mutates
the argument list to `shuffled` (a permutation chosen by the RNG), and the
enumeration then works on the shuffled list. -/
def download_all_audio_run (shuffled : List String) (downloadPath : Str)
    (traces : Nat → Nat → AttemptOutcome) (jitters : Nat → Nat → ℚ) : OrchestratorRun :=
  ⟨download_all_audio shuffled downloadPath traces jitters, shuffled⟩

lemma pyEnumerate_length (start : Nat) (l : List String) :
    (pyEnumerate start l).length = l.length := by
  induction l generalizing start with
  | nil => rfl
  | cons u us ih => simp [pyEnumerate, ih]

lemma pyEnumerate_fst_ge (start : Nat) (l : List String) :
    ∀ q ∈ pyEnumerate start l, start ≤ q.1 := by
  induction l generalizing start with
  | nil => simp [pyEnumerate]
  | cons u us ih =>
    intro q hq
    rcases List.mem_cons.mp hq with rfl | hq
    · exact le_refl _
    · exact Nat.le_of_succ_le (ih (start + 1) q hq)

lemma pyEnumerate_fst_nodup (start : Nat) (l : List String) :
    ((pyEnumerate start l).map Prod.fst).Nodup := by
  induction l generalizing start with
  | nil => simp [pyEnumerate]
  | cons u us ih =>
    simp only [pyEnumerate, List.map_cons, List.nodup_cons]
    refine ⟨?_, ih (start + 1)⟩
    intro hmem
    obtain ⟨q, hq, hfst⟩ := List.mem_map.mp hmem
    have := pyEnumerate_fst_ge (start + 1) us q hq
    omega

/-- `filterMap` along a list with pairwise distinct keys produces no
duplicates when the produced value determines the key. -/
lemma nodup_filterMap_fst {α β : Type} (l : List (Nat × α)) (g : Nat × α → Option β)
    (hfst : (l.map Prod.fst).Nodup)
    (hinj : ∀ a b p, g a = some p → g b = some p → a.1 = b.1) :
    (l.filterMap g).Nodup := by
  induction l with
  | nil => simp
  | cons hd tl ih =>
    simp only [List.map_cons, List.nodup_cons] at hfst
    rw [List.filterMap_cons]
    cases hg : g hd with
    | none => exact ih hfst.2
    | some p =>
      rw [List.nodup_cons]
      refine ⟨?_, ih hfst.2⟩
      intro hp
      obtain ⟨b, hb, hgb⟩ := List.mem_filterMap.mp hp
      exact hfst.1 ((hinj hd b p hg hgb) ▸ List.mem_map_of_mem Prod.fst hb)

end Mashup

namespace Mashup

/-- Claim C2: for `N` input URLs the fetch orchestrator returns between
`0` and `N` local paths, with no duplicate path (each path belongs to a
distinct slot, hence a distinct requested URL); when no fetch succeeds it
returns the empty list; failures are only dropped, never propagated —
every returned path stems from a successful fetch of an enumerated URL. -/
theorem orchestrator_results (urls shuffled : List String) (downloadPath : Str)
    (traces : Nat → Nat → AttemptOutcome) (jitters : Nat → Nat → ℚ)
    (hperm : shuffled.Perm urls) :
    (download_all_audio shuffled downloadPath traces jitters).length ≤ urls.length ∧
    (download_all_audio shuffled downloadPath traces jitters).Nodup ∧
    ((∀ q ∈ pyEnumerate 1 shuffled,
        (download_single_audio q.1 downloadPath (traces q.1) (jitters q.1)).result = none) →
      download_all_audio shuffled downloadPath traces jitters = []) ∧
    (∀ p ∈ download_all_audio shuffled downloadPath traces jitters,
      ∃ q ∈ pyEnumerate 1 shuffled,
        (download_single_audio q.1 downloadPath (traces q.1) (jitters q.1)).result =
          some p) := by
  refine ⟨?_, ?_, ?_, ?_⟩
  · calc (download_all_audio shuffled downloadPath traces jitters).length
        ≤ (pyEnumerate 1 shuffled).length := List.length_filterMap_le _ _
      _ = shuffled.length := pyEnumerate_length 1 shuffled
      _ = urls.length := hperm.length_eq
  · exact nodup_filterMap_fst _ _ (pyEnumerate_fst_nodup 1 shuffled)
      (fun a b p ha hb => result_same_path_index_eq downloadPath traces jitters a.1 b.1 p ha hb)
  · intro hall
    exact List.filterMap_eq_nil_iff.mpr hall
  · intro p hp
    obtain ⟨q, hq, hgq⟩ := List.mem_filterMap.mp hp
    exact ⟨q, hq, hgq⟩

/-- Witness for C2: a single URL whose fetch fails with a non-retryable
error yields the empty result list, trivially satisfying all bounds. -/
theorem orchestrator_results_witness :
    (download_all_audio ["u"] ("d".data) (fun _ => otherTrace) (fun _ _ => 0)).length ≤
      (["u"] : List String).length ∧
    (download_all_audio ["u"] ("d".data) (fun _ => otherTrace) (fun _ _ => 0)).Nodup ∧
    ((∀ q ∈ pyEnumerate 1 ["u"],
        (download_single_audio q.1 ("d".data) otherTrace (fun _ => 0)).result = none) →
      download_all_audio ["u"] ("d".data) (fun _ => otherTrace) (fun _ _ => 0) = []) ∧
    (∀ p ∈ download_all_audio ["u"] ("d".data) (fun _ => otherTrace) (fun _ _ => 0),
      ∃ q ∈ pyEnumerate 1 ["u"],
        (download_single_audio q.1 ("d".data) otherTrace (fun _ => 0)).result = some p) :=
  orchestrator_results ["u"] ["u"] ("d".data) (fun _ => otherTrace) (fun _ _ => 0)
    (List.Perm.refl _)

end Mashup

namespace Mashup

/-! ### Composite assembler (`create_mashup`)

An `AudioSegment` is modelled as a list of millisecond frames, so that
`len(audio)` is `audio.length`, `audio[a:b]` is `(audio.drop a).take (b-a)`
and `+=` is list append.  Decoding a file either fails
(`AudioSegment.from_file` raises, the file is skipped) or yields a buffer,
so the assembler's input is a list of `Option` buffers; the random window
start drawn by `random.randint(0, len(audio) - total)` for the `i`-th file
is supplied by the choice function `starts`. -/

/-- One slice of `create_mashup`'s loop body: the whole payload when it is
shorter than the trim duration, otherwise the window of `dms` ms starting
at `start`. -/
def clip (dms start : Nat) (audio : List Nat) : List Nat :=
  if audio.length < dms then audio
  else (audio.drop start).take dms

/-- The assembly loop: `mashup += part` over the decoded files, skipping
decode failures; `i` is the position of the current file in the input. -/
def buildMashup (dms : Nat) (starts : Nat → Nat) : Nat → List (Option (List Nat)) → List Nat
  | _, [] => []
  | i, none :: rest => buildMashup dms starts (i + 1) rest
  | i, some audio :: rest => clip dms (starts i) audio ++ buildMashup dms starts (i + 1) rest

/-- `create_mashup(audio_files, output_file, trim_duration)`: build the
mashup, fail with `None` when it is empty, warn (and keep) when shorter
than `trim_duration*1000*len(audio_files)`, truncate otherwise; the
returned value is the exported track. -/
def create_mashup (files : List (Option (List Nat))) (starts : Nat → Nat)
    (trim_duration : Nat) : Option (List Nat) :=
  let total := trim_duration * 1000
  let mashup := buildMashup total starts 0 files
  if mashup.length = 0 then none
  else if mashup.length < total * files.length then some mashup
  else some (mashup.take (total * files.length))

/-- The range constraint `random.randint(0, len(audio) - total)` imposes on
the window starts: for every successfully decoded file at position `i`
that is at least `dms` long, the drawn start leaves a full window. -/
def validStarts (files : List (Option (List Nat))) (dms : Nat) (starts : Nat → Nat) : Prop :=
  ∀ i audio, files[i]? = some (some audio) → dms ≤ audio.length →
    starts i + dms ≤ audio.length

/-- A valid clip has length `len(audio)` when the payload is short and
exactly `dms` otherwise. -/
lemma clip_length_valid {dms start : Nat} {audio : List Nat}
    (h : dms ≤ audio.length → start + dms ≤ audio.length) :
    (clip dms start audio).length = if audio.length < dms then audio.length else dms := by
  unfold clip
  by_cases hlt : audio.length < dms
  · rw [if_pos hlt, if_pos hlt]
  · rw [if_neg hlt, if_neg hlt]
    have := h (by omega)
    simp
    omega

/-- Every clip is at most `dms` ms long. -/
lemma clip_length_le (dms start : Nat) (audio : List Nat) :
    (clip dms start audio).length ≤ dms ∨ audio.length < dms := by
  unfold clip
  by_cases hlt : audio.length < dms
  · exact Or.inr hlt
  · rw [if_neg hlt]; exact Or.inl (by simp)

/-- Under valid starts, the mashup built from files that all decode to at
least `dms` ms has length exactly `dms * files.length`. -/
lemma buildMashup_length_all_long (dms : Nat) (starts : Nat → Nat) :
    ∀ (files : List (Option (List Nat))) (i : Nat),
      (∀ k audio, files[k]? = some (some audio) → dms ≤ audio.length →
        starts (i + k) + dms ≤ audio.length) →
      (∀ f ∈ files, ∃ audio, f = some audio ∧ dms ≤ audio.length) →
      (buildMashup dms starts i files).length = dms * files.length := by
  intro files
  induction files with
  | nil => intro i _ _; simp [buildMashup]
  | cons f rest ih =>
    intro i hv hlong
    obtain ⟨audio, rfl, hlen⟩ := hlong f (List.mem_cons_self f rest)
    have hv0 : starts i + dms ≤ audio.length := by
      have := hv 0 audio (by simp) hlen
      simpa using this
    have hclip : (clip dms (starts i) audio).length = dms := by
      rw [clip_length_valid (fun _ => hv0)]
      rw [if_neg (by omega)]
    have hrest := ih (i + 1)
      (fun k a hk ha => by
        have := hv (k + 1) a (by simpa using hk) ha
        have harith : i + (k + 1) = i + 1 + k := by omega
        rwa [harith] at this)
      (fun g hg => hlong g (List.mem_cons_of_mem _ hg))
    simp only [buildMashup, List.length_append, hclip, hrest, List.length_cons]
    ring

/-- Under valid starts the length of the built mashup does not depend on
the window choices. -/
lemma buildMashup_length_indep (dms : Nat) (s1 s2 : Nat → Nat) :
    ∀ (files : List (Option (List Nat))) (i : Nat),
      (∀ k audio, files[k]? = some (some audio) → dms ≤ audio.length →
        s1 (i + k) + dms ≤ audio.length) →
      (∀ k audio, files[k]? = some (some audio) → dms ≤ audio.length →
        s2 (i + k) + dms ≤ audio.length) →
      (buildMashup dms s1 i files).length = (buildMashup dms s2 i files).length := by
  intro files
  induction files with
  | nil => intro i _ _; rfl
  | cons f rest ih =>
    intro i hv1 hv2
    have hrest := ih (i + 1)
      (fun k a hk ha => by
        have := hv1 (k + 1) a (by simpa using hk) ha
        have harith : i + (k + 1) = i + 1 + k := by omega
        rwa [harith] at this)
      (fun k a hk ha => by
        have := hv2 (k + 1) a (by simpa using hk) ha
        have harith : i + (k + 1) = i + 1 + k := by omega
        rwa [harith] at this)
    cases f with
    | none => simpa [buildMashup] using hrest
    | some audio =>
      have h1 : (clip dms (s1 i) audio).length =
          if audio.length < dms then audio.length else dms :=
        clip_length_valid (fun h => by simpa using hv1 0 audio (by simp) h)
      have h2 : (clip dms (s2 i) audio).length =
          if audio.length < dms then audio.length else dms :=
        clip_length_valid (fun h => by simpa using hv2 0 audio (by simp) h)
      simp only [buildMashup, List.length_append, h1, h2, hrest]

end Mashup

namespace Mashup

/-- All decode failures build an empty mashup. -/
lemma buildMashup_all_none (dms : Nat) (starts : Nat → Nat) :
    ∀ (files : List (Option (List Nat))) (i : Nat), (∀ f ∈ files, f = none) →
      buildMashup dms starts i files = [] := by
  intro files
  induction files with
  | nil => intro i _; rfl
  | cons f rest ih =>
    intro i hall
    have hf := hall f (List.mem_cons_self f rest)
    subst hf
    exact ih (i + 1) (fun g hg => hall g (List.mem_cons_of_mem _ hg))

/-- Claim C4: the assembler computes the expected duration from the
original input count `len(audio_files)`; a shorter mashup is kept as-is
(warning only, never padded), a longer one is truncated to exactly the
expected duration; in particular, when every one of the (non-zero number
of) inputs decodes to at least `trim_duration*1000` ms, the exported track
is exactly `trim_duration*1000*len(audio_files)` ms long. -/
theorem assembler_expected_duration (files : List (Option (List Nat))) (starts : Nat → Nat)
    (td : Nat) (hv : validStarts files (td * 1000) starts) (htd : 0 < td) :
    (buildMashup (td * 1000) starts 0 files ≠ [] →
      (buildMashup (td * 1000) starts 0 files).length < td * 1000 * files.length →
      create_mashup files starts td = some (buildMashup (td * 1000) starts 0 files)) ∧
    (buildMashup (td * 1000) starts 0 files ≠ [] →
      td * 1000 * files.length ≤ (buildMashup (td * 1000) starts 0 files).length →
      create_mashup files starts td =
        some ((buildMashup (td * 1000) starts 0 files).take (td * 1000 * files.length)) ∧
      ((buildMashup (td * 1000) starts 0 files).take (td * 1000 * files.length)).length =
        td * 1000 * files.length) ∧
    ((∀ f ∈ files, ∃ audio, f = some audio ∧ td * 1000 ≤ audio.length) → files ≠ [] →
      ∃ m, create_mashup files starts td = some m ∧ m.length = td * 1000 * files.length) := by
  refine ⟨?_, ?_, ?_⟩
  · intro hne hlt
    simp only [create_mashup]
    rw [if_neg (by simpa [List.length_eq_zero] using hne), if_pos hlt]
  · intro hne hge
    refine ⟨?_, by rw [List.length_take]; omega⟩
    simp only [create_mashup]
    rw [if_neg (by simpa [List.length_eq_zero] using hne), if_neg (by omega)]
  · intro hlong hne
    have hlen : (buildMashup (td * 1000) starts 0 files).length = td * 1000 * files.length :=
      buildMashup_length_all_long (td * 1000) starts files 0
        (fun k a hk ha => by simpa using hv k a hk ha) hlong
    have hfl : 0 < files.length := List.length_pos.mpr hne
    have hE : 0 < td * 1000 * files.length :=
      Nat.mul_pos (Nat.mul_pos htd (by norm_num)) hfl
    simp only [create_mashup]
    rw [if_neg (by omega), if_neg (by omega)]
    exact ⟨_, rfl, by rw [List.length_take]; omega⟩

/-- Witness for C4: two one-second payloads of 1500 ms each with window
start 0 produce an exported track of exactly `1*1000*2` ms. -/
theorem assembler_expected_duration_witness :
    ∃ m, create_mashup [some (List.replicate 1500 0), some (List.replicate 1500 0)]
      (fun _ => 0) 1 = some m ∧
      m.length = 1 * 1000 * ([some (List.replicate 1500 0),
        some (List.replicate 1500 0)] : List (Option (List Nat))).length :=
  (assembler_expected_duration
    [some (List.replicate 1500 0), some (List.replicate 1500 0)] (fun _ => 0) 1
    (by intro i audio _ hl; simpa using hl)
    (by norm_num)).2.2
    (by
      intro f hf
      rcases List.mem_cons.mp hf with rfl | hf
      · exact ⟨_, rfl, by rw [List.length_replicate]; norm_num⟩
      · rcases List.mem_cons.mp hf with rfl | hf
        · exact ⟨_, rfl, by rw [List.length_replicate]; norm_num⟩
        · exact absurd hf (List.not_mem_nil f))
    (List.cons_ne_nil _ _)

/-- Claim C5: a payload shorter than the trim duration is appended whole
(no silence fabricated); a long-enough payload contributes a contiguous
window of exactly `trim_duration*1000` ms; every appended slice is at most
`trim_duration*1000` ms; and a single short payload is exported at its
full duration. -/
theorem assembler_slice_policy (td start : Nat) (audio : List Nat) (starts : Nat → Nat) :
    (audio.length < td * 1000 → clip (td * 1000) start audio = audio) ∧
    (td * 1000 ≤ audio.length → start + td * 1000 ≤ audio.length →
      clip (td * 1000) start audio = (audio.drop start).take (td * 1000) ∧
      (clip (td * 1000) start audio).length = td * 1000) ∧
    (clip (td * 1000) start audio).length ≤ max (td * 1000) audio.length ∧
    ((td * 1000 ≤ audio.length → start + td * 1000 ≤ audio.length) →
      (clip (td * 1000) start audio).length ≤ td * 1000) ∧
    (0 < audio.length → audio.length < td * 1000 →
      create_mashup [some audio] starts td = some audio) := by
  refine ⟨?_, ?_, ?_, ?_, ?_⟩
  · intro h; unfold clip; rw [if_pos h]
  · intro h1 h2
    unfold clip
    rw [if_neg (by omega)]
    refine ⟨rfl, ?_⟩
    rw [List.length_take, List.length_drop]
    omega
  · unfold clip
    by_cases h : audio.length < td * 1000
    · rw [if_pos h]; omega
    · rw [if_neg h]; rw [List.length_take, List.length_drop]; omega
  · intro hval
    unfold clip
    by_cases h : audio.length < td * 1000
    · rw [if_pos h]; omega
    · rw [if_neg h]; rw [List.length_take, List.length_drop]; omega
  · intro hpos hshort
    have hM : buildMashup (td * 1000) starts 0 [some audio] = audio := by
      show clip (td * 1000) (starts 0) audio ++ buildMashup (td * 1000) starts 1 [] = audio
      unfold clip
      rw [if_pos hshort]
      simp [buildMashup]
    simp only [create_mashup, hM]
    rw [if_neg (by omega), if_pos (by simpa using hshort)]

/-- Witness for C5: a 3 ms payload with a 1 s target is exported whole. -/
theorem assembler_slice_policy_witness :
    create_mashup [some [7, 7, 7]] (fun _ => 0) 1 = some [7, 7, 7] :=
  (assembler_slice_policy 1 0 [7, 7, 7] (fun _ => 0)).2.2.2.2 (by norm_num) (by norm_num)

/-- Claim C6: `create_mashup` returns `None` (exporting nothing) exactly
when the accumulated mashup is empty after processing all files, and in
particular when every file fails to decode. -/
theorem assembler_empty_failure (files : List (Option (List Nat))) (starts : Nat → Nat)
    (td : Nat) :
    (create_mashup files starts td = none ↔ buildMashup (td * 1000) starts 0 files = []) ∧
    ((∀ f ∈ files, f = none) → create_mashup files starts td = none) := by
  have hiff : create_mashup files starts td = none ↔
      buildMashup (td * 1000) starts 0 files = [] := by
    constructor
    · intro h
      by_contra hne
      simp only [create_mashup] at h
      rw [if_neg (by simpa [List.length_eq_zero] using hne)] at h
      by_cases hlt : (buildMashup (td * 1000) starts 0 files).length <
        td * 1000 * files.length
      · rw [if_pos hlt] at h; exact Option.noConfusion h
      · rw [if_neg hlt] at h; exact Option.noConfusion h
    · intro h
      simp only [create_mashup]
      rw [if_pos (by simp [h])]
  refine ⟨hiff, fun hall => hiff.mpr (buildMashup_all_none (td * 1000) starts files 0 hall)⟩

/-- Witness for C6: when the single input fails to decode, the assembler
fails with `None`. -/
theorem assembler_empty_failure_witness :
    create_mashup [none] (fun _ => 0) 30 = none :=
  (assembler_empty_failure [none] (fun _ => 0) 30).2 (by simp)

/-- Claim C7: two runs of the assembler on the same inputs and the same
trim duration that differ only in the random window choices export tracks
of identical duration. -/
theorem assembler_duration_deterministic (files : List (Option (List Nat))) (td : Nat)
    (s1 s2 : Nat → Nat) (h1 : validStarts files (td * 1000) s1)
    (h2 : validStarts files (td * 1000) s2) :
    Option.map List.length (create_mashup files s1 td) =
      Option.map List.length (create_mashup files s2 td) := by
  have hlen : (buildMashup (td * 1000) s1 0 files).length =
      (buildMashup (td * 1000) s2 0 files).length :=
    buildMashup_length_indep (td * 1000) s1 s2 files 0
      (fun k a hk ha => by simpa using h1 k a hk ha)
      (fun k a hk ha => by simpa using h2 k a hk ha)
  simp only [create_mashup]
  by_cases h0 : (buildMashup (td * 1000) s1 0 files).length = 0
  · rw [if_pos h0, if_pos (hlen.symm.trans h0)]
  · rw [if_neg h0, if_neg (fun hc => h0 (hlen.trans hc))]
    by_cases hlt : (buildMashup (td * 1000) s1 0 files).length < td * 1000 * files.length
    · rw [if_pos hlt, if_pos (by rw [← hlen]; exact hlt)]
      simp only [Option.map_some']
      exact congrArg some hlen
    · rw [if_neg hlt, if_neg (by rw [← hlen]; exact hlt)]
      simp only [Option.map_some', List.length_take]
      rw [hlen]

/-- Witness for C7: with no decodable input, both window-choice functions
give the same (empty) export. -/
theorem assembler_duration_deterministic_witness :
    Option.map List.length (create_mashup [none] (fun _ => 0) 30) =
      Option.map List.length (create_mashup [none] (fun _ => 7) 30) :=
  assembler_duration_deterministic [none] 30 (fun _ => 0) (fun _ => 7)
    (by intro i a h; cases i <;> simp at h)
    (by intro i a h; cases i <;> simp at h)

end Mashup

namespace Mashup

/-! ### Pipeline driver (`main`) -/

/-- Outcome of one `main` run, as surfaced to the user. -/
inductive PipelineOutcome where
  | invalidInput
  | noResults
  | noAudioDownloaded
  | assemblyFailed
  | success (emailSent : Bool)
deriving DecidableEq

/-- Observable run of the pipeline driver: the user-visible outcome plus
whether the fetch orchestrator (`download_all_audio`) was invoked. -/
structure PipelineRun where
  outcome : PipelineOutcome
  fetchInvoked : Bool
deriving DecidableEq

/-- The driver logic of `main` after the Create-Mashup button: validate
the inputs, then check the catalog result (`if not videos`) and fail with
the no-results error before any fetch when it is empty; otherwise fetch
(`download_all_audio`), check for zero successes, assemble
(`create_mashup`), and report; the catalog lookup, fetching and assembly
are supplied as functions. -/
def mainPipeline (singerOk emailOk : Bool) (videos : List (String × String))
    (fetch : List String → List Str) (assemble : List Str → Option (List Nat))
    (emailSent : Bool) : PipelineRun :=
  if !singerOk || !emailOk then ⟨PipelineOutcome.invalidInput, false⟩
  else if videos.isEmpty then ⟨PipelineOutcome.noResults, false⟩
  else
    let audio_files := fetch (videos.map Prod.snd)
    if audio_files.isEmpty then ⟨PipelineOutcome.noAudioDownloaded, true⟩
    else
      match assemble audio_files with
      | none => ⟨PipelineOutcome.assemblyFailed, true⟩
      | some _ => ⟨PipelineOutcome.success emailSent, true⟩

/-- Claim C8: when the catalog lookup returns the empty sequence, the
driver fails with the no-results error and the fetch orchestrator is
never invoked, whatever the fetch, assembly and delivery behaviour. -/
theorem driver_noResults_before_fetch (fetch : List String → List Str)
    (assemble : List Str → Option (List Nat)) (emailSent : Bool) :
    mainPipeline true true [] fetch assemble emailSent =
      ⟨PipelineOutcome.noResults, false⟩ := rfl

/-! ### Worker pool bound (`ThreadPoolExecutor(max_workers=1)`) -/

/-- The concurrency cap of `download_all_audio`'s pool
(`ThreadPoolExecutor(max_workers=1)`, "Reduced to 1 worker"). -/
def max_workers : Nat := 1

/-- State of the worker pool: queued, running, and finished task ids. -/
structure PoolState where
  pending : List Nat
  running : List Nat
  finished : List Nat

/-- Transitions of the bounded worker pool: a pending task may start only
while fewer than `max_workers` tasks are running; a running task may
finish at any time. -/
inductive PoolStep : PoolState → PoolState → Prop where
  | start (s : PoolState) (t : Nat) (rest : List Nat)
      (hp : s.pending = t :: rest) (hcap : s.running.length < max_workers) :
      PoolStep s ⟨rest, t :: s.running, s.finished⟩
  | finish (s : PoolState) (t : Nat) (ht : t ∈ s.running) :
      PoolStep s ⟨s.pending, s.running.erase t, t :: s.finished⟩

/-- Pool states reachable from the initial state with every task queued
and nothing running. -/
def poolReachable (tasks : List Nat) : PoolState → Prop :=
  Relation.ReflTransGen PoolStep ⟨tasks, [], []⟩

/-- One pool transition preserves the concurrency bound. -/
lemma poolStep_running_le {s t : PoolState} (h : PoolStep s t)
    (hs : s.running.length ≤ max_workers) : t.running.length ≤ max_workers := by
  cases h with
  | start u rest hp hcap =>
    show (u :: s.running).length ≤ max_workers
    simp only [List.length_cons]
    omega
  | finish u hu =>
    have h2 := (List.erase_sublist u s.running).length_le
    show (s.running.erase u).length ≤ max_workers
    omega

/-- Claim C9: in every reachable state of the fetch orchestrator's worker
pool, the number of concurrently running fetch tasks is at most
`max_workers`, and the cap is at most 2 (the source sets it to 1). -/
theorem pool_concurrency_bound (tasks : List Nat) (s : PoolState)
    (h : poolReachable tasks s) :
    s.running.length ≤ max_workers ∧ max_workers ≤ 2 := by
  refine ⟨?_, by norm_num [max_workers]⟩
  induction h with
  | refl => simp
  | tail _ hstep ih => exact poolStep_running_le hstep ih

/-- Witness for C9: after starting the first of two queued tasks, exactly
one task runs, within the cap. -/
theorem pool_concurrency_bound_witness :
    (PoolState.running ⟨[2], [1], []⟩).length ≤ max_workers ∧ max_workers ≤ 2 :=
  pool_concurrency_bound [1, 2] ⟨[2], [1], []⟩
    (Relation.ReflTransGen.single
      (PoolStep.start ⟨[1, 2], [], []⟩ 1 [2] rfl (by norm_num [max_workers])))

/-! ### In-place shuffle of the caller's URL list (C10) -/

/-- Counterexample to C10 as stated: for a singleton catalog the only
permutation `random.shuffle` can produce is the list itself, so after the
call the caller's list still equals its original catalog order — it is
not "no longer in its original order". -/
theorem shuffle_order_can_survive :
    (["u"] : List String).Perm ["u"] ∧
    (download_all_audio_run ["u"] ("d".data) (fun _ => otherTrace)
      (fun _ _ => 0)).urlsAfter = ["u"] :=
  ⟨List.Perm.refl _, rfl⟩

/-- Claim C10 (amended): `download_all_audio` does mutate the caller's
list in place — after the call the caller holds the shuffled permutation
of the original URLs — but that permutation is merely some reordering and
need not differ from the original catalog order. -/
theorem shuffle_mutates_in_place (urls shuffled : List String) (downloadPath : Str)
    (traces : Nat → Nat → AttemptOutcome) (jitters : Nat → Nat → ℚ)
    (hperm : shuffled.Perm urls) :
    (download_all_audio_run shuffled downloadPath traces jitters).urlsAfter = shuffled ∧
    (download_all_audio_run shuffled downloadPath traces jitters).urlsAfter.Perm urls :=
  ⟨rfl, hperm⟩

/-- Witness for C10 (amended): a two-element catalog shuffled to the
reversed order leaves the caller's list holding that permutation. -/
theorem shuffle_mutates_in_place_witness :
    (download_all_audio_run ["b", "a"] ("d".data) (fun _ => otherTrace)
      (fun _ _ => 0)).urlsAfter = ["b", "a"] ∧
    (download_all_audio_run ["b", "a"] ("d".data) (fun _ => otherTrace)
      (fun _ _ => 0)).urlsAfter.Perm ["a", "b"] :=
  shuffle_mutates_in_place ["a", "b"] ["b", "a"] ("d".data) (fun _ => otherTrace)
    (fun _ _ => 0) (by decide)

end Mashup
